import Mathlib

/-!
Verification development for the ityfuzz EVM execution core.

Embedding conventions:
* `EVMU256` values, addresses and byte values are modeled as `Nat`
  (no claim here depends on 256-bit wraparound); `as_u64` keeps its
  truncating semantics explicitly.
* Rust `Vec`-based stacks push and pop at the vector end; here stacks are
  lists with the *head as the stack top*, so `peek(n)` is `List.get? n`,
  `push` is `cons`, and the Rust index `len - 1 - n` is index `n`.
* Rust functions that can panic (`expect`, `unwrap`, out-of-bounds
  indexing, `todo!`, `unreachable!`, explicit asserts) are embedded as
  `Option`-returning functions where `Option.none` marks the panic.
* `HashMap` values are association lists; `HashSet` values are lists
  with membership-guarded insertion.
-/

/-- Operator tags of the symbolic expression engine
(`ConcolicOp` in src/evm/concolic/expr.rs). -/
inductive ConcolicOp : Type where
  | EVMU256 (v : Nat)
  | ADD
  | DIV
  | MUL
  | SUB
  | SDIV
  | SMOD
  | UREM
  | SREM
  | AND
  | OR
  | XOR
  | NOT
  | SHL
  | SHR
  | SAR
  | SLICEDINPUT (v : Nat)
  | BALANCE
  | CALLVALUE
  | CALLER
  | SYMBYTE (s : String)
  | CONSTBYTE (b : Nat)
  | FINEGRAINEDINPUT (start finish : Nat)
  | EQ
  | LT
  | SLT
  | GT
  | SGT
  | LNOT
  | SELECT (high low : Nat)
  | CONCAT
deriving DecidableEq

mutual
/-- Expression node (`Expr` in src/evm/concolic/expr.rs): optional left and
right children plus an operator tag. -/
inductive Expr : Type where
  | mk (lhs : OExpr) (rhs : OExpr) (op : ConcolicOp) : Expr

/-- Copy of `Option Expr` (the `Option<Box<Expr>>` child slots), kept as a
mutual inductive so that structural recursion over children is direct. -/
inductive OExpr : Type where
  | none : OExpr
  | some (e : Expr) : OExpr
end

def Expr.lhs : Expr → OExpr
  | .mk l _ _ => l

def Expr.rhs : Expr → OExpr
  | .mk _ r _ => r

def Expr.op : Expr → ConcolicOp
  | .mk _ _ o => o

deriving instance DecidableEq for Expr
deriving instance DecidableEq for OExpr

mutual
def Expr.size : Expr → Nat
  | .mk l r _ => OExpr.osize l + OExpr.osize r + 1

def OExpr.osize : OExpr → Nat
  | .none => 0
  | .some e => Expr.size e + 1
end

/-- Result of `is_concrete` on a childless node, by operator
(the leaf arm of `Expr::is_concrete`); `Option.none` is the
`unreachable!()` panic for non-leaf operators without children. -/
def leafConcrete : ConcolicOp → Option Bool
  | .EVMU256 _ => some true
  | .SLICEDINPUT _ => some false
  | .BALANCE => some false
  | .CALLVALUE => some false
  | .SYMBYTE _ => some false
  | .CONSTBYTE _ => some true
  | .FINEGRAINEDINPUT _ _ => some false
  | .CALLER => some false
  | _ => none

/-- Embedding of `Expr::is_concrete`: Rust `&&` short-circuits, so a false
left child hides a panic in the right child; the `(None, Some)` shape is the
`unreachable!()` panic. -/
def Expr.is_concrete : Expr → Option Bool
  | .mk (.some l) (.some r) _ =>
    match Expr.is_concrete l with
    | Option.none => Option.none
    | some false => some false
    | some true => Expr.is_concrete r
  | .mk .none .none op => leafConcrete op
  | .mk (.some l) .none _ => Expr.is_concrete l
  | .mk .none (.some _) _ => Option.none

/-- Interval-plus-source context threaded bottom-up by the simplifier
(`ConcatOptCtx` in src/evm/concolic/expr.rs). -/
structure ConcatOptCtx : Type where
  low : Nat
  high : Nat
  on_expr : OExpr
deriving DecidableEq

/-- Embedding of `ConcatOptCtx::merge`. Rust mutates `self` and returns a
`bool`; here the pair `(flag, updated self)` is returned. -/
def ConcatOptCtx.merge (self other : ConcatOptCtx) : Bool × ConcatOptCtx :=
  if other.on_expr ≠ self.on_expr ∨ other.on_expr = OExpr.none ∨ self.on_expr = OExpr.none then
    (false, self)
  else if self.low = other.high + 1 then
    (true, { self with low := other.low })
  else if self.high + 1 = other.low then
    (true, { self with high := other.high })
  else
    (false, self)

/-- Projection of a recursive-call result to the simplified child slot
(the `.map(|(_ctx, e)| e)` step of `simplify_concat_select_helper`). -/
def infoToOE : Option (ConcatOptCtx × Expr) → OExpr
  | Option.none => OExpr.none
  | some (_, e) => OExpr.some e

/-- Non-recursive core of `simplify_concat_select_helper`: given the results
of the recursive calls on the two children and the node operator, produce the
context and rewritten node.  `Option.none` is a panic: the `unwrap()` of a
missing child info on a CONCAT node, or the `assert!` of a missing left child
on a SELECT node. -/
def simplifyCore (lhsInfo rhsInfo : Option (ConcatOptCtx × Expr)) (op : ConcolicOp) :
    Option (ConcatOptCtx × Expr) :=
  match op with
  | .CONCAT =>
    match lhsInfo, rhsInfo with
    | some (lhsCtx, le), some (rhsCtx, re) =>
      let m := lhsCtx.merge rhsCtx
      if m.1 then
        some (m.2, Expr.mk m.2.on_expr OExpr.none (.SELECT m.2.high m.2.low))
      else
        some (⟨0, 0, OExpr.none⟩, Expr.mk (OExpr.some le) (OExpr.some re) .CONCAT)
    | _, _ => Option.none
  | .SELECT high low =>
    match lhsInfo with
    | some (_, le) =>
      some (⟨low, high, OExpr.some le⟩,
        Expr.mk (OExpr.some le) (infoToOE rhsInfo) (.SELECT high low))
    | Option.none => Option.none
  | op => some (⟨0, 0, OExpr.none⟩, Expr.mk (infoToOE lhsInfo) (infoToOE rhsInfo) op)

mutual
/-- Embedding of `simplify_concat_select_helper`; `Option.none` marks a
panic inside the traversal. -/
def simplifyHelper : Expr → Option (ConcatOptCtx × Expr)
  | .mk lhs rhs op =>
    match simplifyHelperO lhs with
    | Option.none => Option.none
    | some lhsInfo =>
      match simplifyHelperO rhs with
      | Option.none => Option.none
      | some rhsInfo => simplifyCore lhsInfo rhsInfo op

/-- The `expr.lhs.map(|e| simplify_concat_select_helper(e))` step: outer
`Option` is panic propagation, inner `Option` mirrors the optional child. -/
def simplifyHelperO : OExpr → Option (Option (ConcatOptCtx × Expr))
  | .none => some Option.none
  | .some e =>
    match simplifyHelper e with
    | Option.none => Option.none
    | some p => some (some p)
end

/-- Embedding of `simplify_concat_select`. -/
def simplify_concat_select (e : Expr) : Option Expr :=
  (simplifyHelper e).map Prod.snd

/-- Embedding of `simplify` (src/evm/concolic/expr.rs), which just runs
`simplify_concat_select`. -/
def simplify (e : Expr) : Option Expr :=
  simplify_concat_select e

/-- Operators that `Expr`'s public constructors place on childless nodes
(the eight leaf arms of `Expr::is_concrete`). -/
def isLeafOp : ConcolicOp → Bool
  | .EVMU256 _ => true
  | .SLICEDINPUT _ => true
  | .BALANCE => true
  | .CALLVALUE => true
  | .SYMBYTE _ => true
  | .CONSTBYTE _ => true
  | .FINEGRAINEDINPUT _ _ => true
  | .CALLER => true
  | _ => false

/-- Concrete leaf operators: full-word constant and constant byte. -/
def isConcreteLeafOp : ConcolicOp → Bool
  | .EVMU256 _ => true
  | .CONSTBYTE _ => true
  | _ => false

/-- Well-formedness of an expression tree: the shapes that the source's
constructors can build (leaf operators on childless nodes, never a right
child without a left one). On these trees `is_concrete` cannot panic. -/
def Expr.wf : Expr → Bool
  | .mk (.some l) (.some r) _ => Expr.wf l && Expr.wf r
  | .mk (.some l) .none _ => Expr.wf l
  | .mk .none (.some _) _ => false
  | .mk .none .none op => isLeafOp op

/-- Reference predicate: every leaf reachable from the node is a concrete
leaf (the invariant `is_concrete` is specified to decide). -/
def Expr.allLeavesConcrete : Expr → Bool
  | .mk (.some l) (.some r) _ => Expr.allLeavesConcrete l && Expr.allLeavesConcrete r
  | .mk (.some l) .none _ => Expr.allLeavesConcrete l
  | .mk .none (.some r) _ => Expr.allLeavesConcrete r
  | .mk .none .none op => isConcreteLeafOp op

/-- Number of environment leaves (caller, call-value, balance, sliced-input,
fine-grained input, symbolic byte) in the tree. -/
def Expr.envLeafCount : Expr → Nat
  | .mk (.some l) (.some r) _ => Expr.envLeafCount l + Expr.envLeafCount r
  | .mk (.some l) .none _ => Expr.envLeafCount l
  | .mk .none (.some r) _ => Expr.envLeafCount r
  | .mk .none .none op => if isLeafOp op && !isConcreteLeafOp op then 1 else 0

/-- Smart constructors mirroring the builder methods on `Expr`. -/
def Expr.leaf (op : ConcolicOp) : Expr := .mk .none .none op

def Expr.new_sliced_input (idx : Nat) : Expr := Expr.leaf (.SLICEDINPUT idx)

def Expr.new_balance : Expr := Expr.leaf .BALANCE

def Expr.new_callvalue : Expr := Expr.leaf .CALLVALUE

def Expr.new_caller : Expr := Expr.leaf .CALLER

def Expr.sliced_input (start finish : Nat) : Expr := Expr.leaf (.FINEGRAINEDINPUT start finish)

def Expr.sym_byte (s : String) : Expr := Expr.leaf (.SYMBYTE s)

def Expr.const_byte (b : Nat) : Expr := Expr.leaf (.CONSTBYTE b)

/-- The `box_bv!` macro: binary node from two children. -/
def Expr.binop (a b : Expr) (op : ConcolicOp) : Expr := .mk (.some a) (.some b) op

def Expr.concat (a b : Expr) : Expr := Expr.binop a b .CONCAT

def Expr.add (a b : Expr) : Expr := Expr.binop a b .ADD

def Expr.mul (a b : Expr) : Expr := Expr.binop a b .MUL

def Expr.sub (a b : Expr) : Expr := Expr.binop a b .SUB

def Expr.div (a b : Expr) : Expr := Expr.binop a b .DIV

def Expr.bvsdiv (a b : Expr) : Expr := Expr.binop a b .SDIV

def Expr.bvsmod (a b : Expr) : Expr := Expr.binop a b .SMOD

def Expr.bvurem (a b : Expr) : Expr := Expr.binop a b .UREM

def Expr.bvsrem (a b : Expr) : Expr := Expr.binop a b .SREM

def Expr.bvand (a b : Expr) : Expr := Expr.binop a b .AND

def Expr.bvor (a b : Expr) : Expr := Expr.binop a b .OR

def Expr.bvxor (a b : Expr) : Expr := Expr.binop a b .XOR

def Expr.bvnot (a : Expr) : Expr := .mk (.some a) .none .NOT

def Expr.bvshl (a b : Expr) : Expr := Expr.binop a b .SHL

def Expr.bvlshr (a b : Expr) : Expr := Expr.binop a b .SHR

def Expr.bvsar (a b : Expr) : Expr := Expr.binop a b .SAR

def Expr.bvult (a b : Expr) : Expr := Expr.binop a b .LT

def Expr.bvugt (a b : Expr) : Expr := Expr.binop a b .GT

def Expr.bvslt (a b : Expr) : Expr := Expr.binop a b .SLT

def Expr.bvsgt (a b : Expr) : Expr := Expr.binop a b .SGT

def Expr.equal (a b : Expr) : Expr := Expr.binop a b .EQ

def Expr.lnot (a : Expr) : Expr := .mk (.some a) .none .LNOT

/-- Truncation performed by `as_u64` (`v.as_limbs()[0]`). -/
def asU64 (n : Nat) : Nat := n % 2 ^ 64

/-- Association-list stand-in for `HashMap::insert` (replace or add). -/
def alistInsert {α : Type} (k : Nat) (v : α) (l : List (Nat × α)) : List (Nat × α) :=
  (k, v) :: l.filter (fun p => !(p.1 == k))

/-- Association-list stand-in for `HashMap::get`. -/
def alistGet {α : Type} (l : List (Nat × α)) (k : Nat) : Option α :=
  (l.find? (fun p => p.1 == k)).map Prod.snd

/-- Stand-in for `HashSet::insert` on a list without duplicates. -/
def hsetInsert {α : Type} [BEq α] (x : α) (l : List α) : List α :=
  if l.contains x then l else x :: l

/-- What the middlewares read from the live interpreter before a step:
current opcode byte, program counter, contract address, and the concrete
stack (top-first). -/
structure InterpView : Type where
  opcode : Nat
  pc : Nat
  address : Nat
  stack : List Nat

/-- Saved taint call context (`Sha3TaintAnalysisCtx`). -/
structure Sha3TaintAnalysisCtx : Type where
  dirty_memory : List Bool
  dirty_storage : List (Nat × Bool)
  dirty_stack : List Bool
  input_data : List Bool

/-- Taint analyzer state (`Sha3TaintAnalysis`); `ctxs` is top-first. -/
structure Sha3TaintAnalysis : Type where
  dirty_memory : List Bool
  dirty_storage : List (Nat × Bool)
  dirty_stack : List Bool
  tainted_jumpi : List (Nat × Nat)
  ctxs : List Sha3TaintAnalysisCtx

/-- Embedding of `Sha3TaintAnalysis::new`. -/
def Sha3TaintAnalysis.new : Sha3TaintAnalysis :=
  ⟨[], [], [], [], []⟩

/-- Embedding of `Sha3TaintAnalysisCtx::read_input`; panics (`Option.none`)
when an index `start + i` escapes `input_data`, which for a nonzero length
means `start + length > input_data.len()`. -/
def Sha3TaintAnalysisCtx.read_input (ctx : Sha3TaintAnalysisCtx) (start length : Nat) :
    Option (List Bool) :=
  if length = 0 then some []
  else if start + length ≤ ctx.input_data.length then
    some ((ctx.input_data.drop start).take length)
  else Option.none

/-- Embedding of `Sha3TaintAnalysis::write_input` (same reads, from
`dirty_memory`). -/
def Sha3TaintAnalysis.write_input (s : Sha3TaintAnalysis) (start length : Nat) :
    Option (List Bool) :=
  if length = 0 then some []
  else if start + length ≤ s.dirty_memory.length then
    some ((s.dirty_memory.drop start).take length)
  else Option.none

/-- Embedding of `Sha3TaintAnalysis::push_ctx` followed by `cleanup`. -/
def Sha3TaintAnalysis.push_ctx (s : Sha3TaintAnalysis) (view : InterpView) :
    Option Sha3TaintAnalysis := do
  let args ←
    if view.opcode = 0xf1 ∨ view.opcode = 0xf2 then do
      let a ← view.stack[3]?
      let b ← view.stack[4]?
      pure (a, b)
    else if view.opcode = 0xf4 ∨ view.opcode = 0xfa then do
      let a ← view.stack[2]?
      let b ← view.stack[3]?
      pure (a, b)
    else Option.none
  let arg_offset := asU64 args.1
  let arg_len := asU64 args.2
  let inputData ← s.write_input arg_offset arg_len
  let ctx : Sha3TaintAnalysisCtx :=
    { input_data := inputData
      dirty_memory := s.dirty_memory
      dirty_storage := s.dirty_storage
      dirty_stack := s.dirty_stack }
  pure { s with dirty_memory := [], dirty_storage := [], dirty_stack := [],
                ctxs := ctx :: s.ctxs }

/-- Embedding of `Sha3TaintAnalysis::pop_ctx` (the `on_return` hook);
panics when no context is saved. -/
def Sha3TaintAnalysis.pop_ctx (s : Sha3TaintAnalysis) : Option Sha3TaintAnalysis :=
  match s.ctxs with
  | [] => Option.none
  | c :: rest =>
    some { s with dirty_memory := c.dirty_memory, dirty_storage := c.dirty_storage,
                  dirty_stack := c.dirty_stack, ctxs := rest }

/-- The `pop_push!` macro: pop `popCnt` taint bits (panicking on an empty
stack), OR them together, push the result `pushCnt` times. -/
def Sha3TaintAnalysis.popPush (s : Sha3TaintAnalysis) (popCnt pushCnt : Nat) :
    Option Sha3TaintAnalysis :=
  if popCnt ≤ s.dirty_stack.length then
    some { s with dirty_stack :=
      List.replicate pushCnt ((s.dirty_stack.take popCnt).any id) ++ s.dirty_stack.drop popCnt }
  else Option.none

/-- The `stack_pop_n!` macro: pop and discard `n` taint bits, panicking on
an empty stack. -/
def stackPopN (n : Nat) (l : List Bool) : Option (List Bool) :=
  if n ≤ l.length then some (l.drop n) else Option.none

/-- The `push_false!` macro. -/
def Sha3TaintAnalysis.pushFalse (s : Sha3TaintAnalysis) : Sha3TaintAnalysis :=
  { s with dirty_stack := false :: s.dirty_stack }

/-- The `ensure_size!` macro on a boolean memory. -/
def ensureSize (l : List Bool) (n : Nat) : List Bool :=
  if l.length < n then l ++ List.replicate (n - l.length) false else l

/-- Write `len` copies of `b` at offset `off` (the `copy_from_slice` calls);
callers first run `ensureSize l (off + len)`. -/
def writeConstRange (l : List Bool) (off len : Nat) (b : Bool) : List Bool :=
  l.take off ++ List.replicate len b ++ l.drop (off + len)

/-- The `setup_mem!` macro: pop three taint bits, then clear the taint of the
target memory range, whose offset and length are read from the concrete
stack at depths 0 and 2. -/
def Sha3TaintAnalysis.setupMem (s : Sha3TaintAnalysis) (view : InterpView) :
    Option Sha3TaintAnalysis := do
  let st ← stackPopN 3 s.dirty_stack
  let offW ← view.stack[0]?
  let lenW ← view.stack[2]?
  let memOffset := asU64 offW
  let len := asU64 lenW
  let mem := ensureSize s.dirty_memory (memOffset + len)
  pure { s with dirty_stack := st, dirty_memory := writeConstRange mem memOffset len false }

/-- Embedding of `Sha3TaintAnalysis::on_step`
(src/evm/middlewares/sha3_bypass.rs). The function first asserts that the
concrete and taint stacks have equal length (`assert_eq!`, active in every
build), then dispatches on the opcode byte; `Option.none` is a panic. -/
def sha3TaintOnStep (view : InterpView) (s : Sha3TaintAnalysis) :
    Option Sha3TaintAnalysis := do
  if view.stack.length ≠ s.dirty_stack.length then Option.none else
  let op := view.opcode
  if op = 0x00 then pure s
  else if 0x01 ≤ op ∧ op ≤ 0x07 then s.popPush 2 1
  else if 0x08 ≤ op ∧ op ≤ 0x09 then s.popPush 3 1
  else if op = 0x0a ∨ op = 0x0b ∨ (0x10 ≤ op ∧ op ≤ 0x14) then s.popPush 2 1
  else if op = 0x15 then s.popPush 1 1
  else if 0x16 ≤ op ∧ op ≤ 0x18 then s.popPush 2 1
  else if op = 0x19 then s.popPush 1 1
  else if 0x1a ≤ op ∧ op ≤ 0x1d then s.popPush 2 1
  else if op = 0x20 then do
    -- SHA3: pop both operands, push `true` unconditionally
    let st ← stackPopN 2 s.dirty_stack
    pure { s with dirty_stack := true :: st }
  else if op = 0x30 then pure s.pushFalse
  else if op = 0x31 then s.popPush 1 1
  else if op = 0x32 ∨ op = 0x33 ∨ op = 0x34 then pure s.pushFalse
  else if op = 0x35 then
    -- CALLDATALOAD: the first pop is `Vec::pop`, silent on an empty stack
    let st := s.dirty_stack.tail
    match s.ctxs with
    | ctx :: _ => do
      let offW ← view.stack[0]?
      let offset := asU64 offW
      if offset = 0 then pure { s with dirty_stack := false :: st }
      else do
        let inp ← ctx.read_input offset 32
        pure { s with dirty_stack := inp.contains true :: st }
    | [] => pure { s with dirty_stack := false :: st }
  else if op = 0x36 then pure s.pushFalse
  else if op = 0x37 then s.setupMem view
  else if op = 0x38 then pure s.pushFalse
  else if op = 0x39 then s.setupMem view
  else if op = 0x3a then pure s.pushFalse
  else if op = 0x3b ∨ op = 0x3f then do
    let st ← stackPopN 1 s.dirty_stack
    pure { s with dirty_stack := false :: st }
  else if op = 0x3c then s.setupMem view
  else if op = 0x3d then pure s.pushFalse
  else if op = 0x3e then s.setupMem view
  else if 0x41 ≤ op ∧ op ≤ 0x48 then pure s.pushFalse
  else if op = 0x50 then pure { s with dirty_stack := s.dirty_stack.tail }
  else if op = 0x51 then do
    -- MLOAD
    let st := s.dirty_stack.tail
    let offW ← view.stack[0]?
    let memOffset := asU64 offW
    let mem := ensureSize s.dirty_memory (memOffset + 32)
    let isDirty := ((mem.drop memOffset).take 32).any id
    pure { s with dirty_memory := mem, dirty_stack := isDirty :: st }
  else if op = 0x52 then do
    -- MSTORE
    let st ← stackPopN 1 s.dirty_stack
    let offW ← view.stack[0]?
    let memOffset := asU64 offW
    match st with
    | [] => Option.none
    | isDirty :: st2 =>
      let mem := ensureSize s.dirty_memory (memOffset + 32)
      pure { s with dirty_stack := st2,
                    dirty_memory := writeConstRange mem memOffset 32 isDirty }
  else if op = 0x53 then do
    -- MSTORE8
    let st ← stackPopN 1 s.dirty_stack
    let offW ← view.stack[0]?
    let memOffset := asU64 offW
    match st with
    | [] => Option.none
    | isDirty :: st2 =>
      let mem := ensureSize s.dirty_memory (memOffset + 1)
      pure { s with dirty_stack := st2,
                    dirty_memory := writeConstRange mem memOffset 1 isDirty }
  else if op = 0x54 then do
    -- SLOAD
    let st := s.dirty_stack.tail
    let key ← view.stack[0]?
    let isDirty := (alistGet s.dirty_storage key).getD false
    pure { s with dirty_stack := isDirty :: st }
  else if op = 0x55 then do
    -- SSTORE
    let st := s.dirty_stack.tail
    match st with
    | [] => Option.none
    | isDirty :: st2 => do
      let key ← view.stack[0]?
      pure { s with dirty_stack := st2,
                    dirty_storage := alistInsert key isDirty s.dirty_storage }
  else if op = 0x56 then pure { s with dirty_stack := s.dirty_stack.tail }
  else if op = 0x57 then
    -- JUMPI: discard the target's taint, then test the condition's taint
    let st := s.dirty_stack.tail
    match st with
    | [] => Option.none
    | v :: st2 =>
      if v then
        pure { s with dirty_stack := st2,
                      tainted_jumpi := hsetInsert (view.address, view.pc) s.tainted_jumpi }
      else
        pure { s with dirty_stack := st2 }
  else if op = 0x58 ∨ op = 0x59 ∨ op = 0x5a then pure s.pushFalse
  else if op = 0x5b then pure s
  else if 0x5f ≤ op ∧ op ≤ 0x7f then pure s.pushFalse
  else if 0x80 ≤ op ∧ op ≤ 0x8f then do
    -- DUP: read the n-th taint bit from the top (index len - n in the source)
    let n := op - 0x80 + 1
    let v ← s.dirty_stack[n - 1]?
    pure { s with dirty_stack := v :: s.dirty_stack }
  else if 0x90 ≤ op ∧ op ≤ 0x9f then do
    -- SWAP: exchange the top bit with the n-th bit from the top
    let n := op - 0x90 + 2
    let top ← s.dirty_stack[0]?
    let deep ← s.dirty_stack[n - 1]?
    pure { s with dirty_stack := (s.dirty_stack.set 0 deep).set (n - 1) top }
  else if 0xa0 ≤ op ∧ op ≤ 0xa4 then do
    let n := op - 0xa0 + 2
    let st ← stackPopN n s.dirty_stack
    pure { s with dirty_stack := st }
  else if op = 0xf0 then do
    let st ← stackPopN 3 s.dirty_stack
    pure { s with dirty_stack := false :: st }
  else if op = 0xf1 ∨ op = 0xf2 then do
    let st ← stackPopN 7 s.dirty_stack
    Sha3TaintAnalysis.push_ctx { s with dirty_stack := false :: st } view
  else if op = 0xf3 then do
    let st ← stackPopN 2 s.dirty_stack
    pure { s with dirty_stack := st }
  else if op = 0xf4 then do
    let st ← stackPopN 6 s.dirty_stack
    Sha3TaintAnalysis.push_ctx { s with dirty_stack := false :: st } view
  else if op = 0xf5 then do
    let st ← stackPopN 4 s.dirty_stack
    pure { s with dirty_stack := false :: st }
  else if op = 0xfa then do
    let st ← stackPopN 6 s.dirty_stack
    Sha3TaintAnalysis.push_ctx { s with dirty_stack := false :: st } view
  else if op = 0xfd then pure s
  else if op = 0xfe then pure s
  else if op = 0xff then pure s
  else Option.none

/-- Embedding of `Sha3Bypass::on_step`: on a JUMPI whose `(address, pc)` was
discovered tainted, overwrite the second stack slot (the branch condition)
with `(pc + randomness[0]) % 2`; otherwise leave the stack alone. Returns
the (possibly updated) concrete stack. -/
def sha3BypassOnStep (view : InterpView) (randomness : List Nat)
    (taintedJumpi : List (Nat × Nat)) : Option (List Nat) :=
  if view.opcode = 0x57 then
    if taintedJumpi.contains (view.address, view.pc) then do
      let r0 ← randomness[0]?
      if view.stack.length < 2 then Option.none
      else pure (view.stack.set 1 ((view.pc + r0) % 2))
    else pure view.stack
  else pure view.stack

/-- Default used when a memory byte slot is absent (`CONSTBYTE(0)`). -/
def orConstByte : Option Expr → Expr
  | some e => e
  | Option.none => Expr.const_byte 0

/-- Embedding of `Vec::resize` on symbolic memory with `None` filler. -/
def listResize (l : List (Option Expr)) (n : Nat) : List (Option Expr) :=
  if n ≤ l.length then l.take n else l ++ List.replicate (n - l.length) Option.none

/-- Embedding of `SymbolicMemory::insert_256`: writes 32 byte-`SELECT`s of
the inserted word. -/
def SymbolicMemory.insert_256 (mem : List (Option Expr)) (idx256 : Nat) (val : Expr) :
    List (Option Expr) :=
  let idx := asU64 idx256
  let mem := if idx + 32 ≥ mem.length then listResize mem (idx + 32 + 1) else mem
  (List.range 32).foldl
    (fun m i =>
      m.set (idx + i)
        (some (Expr.mk (.some val) .none (.SELECT (256 - i * 8 - 1) (256 - i * 8 - 7 - 1)))))
    mem

/-- Embedding of `SymbolicMemory::insert_8`: after the resize the function
prints and then hits `todo!("insert_8")`, so it panics on every call. -/
def SymbolicMemory.insert_8 (_mem : List (Option Expr)) (_idx256 : Nat) (_val : Expr) :
    Option (List (Option Expr)) :=
  Option.none

/-- Embedding of `SymbolicMemory::get_256`. Outer `Option` is panic (the
loop indexes `memory[idx + i]` directly, so `idx + 31` past the end panics,
as would a panic inside `simplify`); inner `Option` is the Rust return. -/
def SymbolicMemory.get_256 (mem : List (Option Expr)) (idx256 : Nat) :
    Option (Option Expr) :=
  let idx := asU64 idx256
  if idx ≥ mem.length then some Option.none
  else if idx + 31 ≥ mem.length then Option.none
  else
    let first := orConstByte (mem.getD idx Option.none)
    let allBytes := (List.range 31).foldl
      (fun acc i => Expr.mk (.some acc) (.some (orConstByte (mem.getD (idx + i + 1) Option.none))) .CONCAT)
      first
    match simplify allBytes with
    | Option.none => Option.none
    | some e => some (some e)

/-- Embedding of `SymbolicMemory::get_slice`: returns the byte slice and the
(possibly lazily resized) memory. -/
def SymbolicMemory.get_slice (mem : List (Option Expr)) (idx256 len256 : Nat) :
    List Expr × List (Option Expr) :=
  let idx := asU64 idx256
  let len := asU64 len256
  let mem := if idx + len ≥ mem.length then listResize mem (idx + len + 1) else mem
  ((List.range len).map (fun i => orConstByte (mem.getD (idx + i) Option.none)), mem)

/-- Saved concolic call context (`ConcolicCallCtx`). -/
structure ConcolicCallCtx : Type where
  symbolic_stack : List (Option Expr)
  symbolic_memory : List (Option Expr)
  symbolic_state : List (Nat × Option Expr)
  input_bytes : List Expr

/-- Concolic shadow state (`ConcolicHost`), stacks and `ctxs` top-first. -/
structure ConcolicHostS : Type where
  symbolic_stack : List (Option Expr)
  symbolic_memory : List (Option Expr)
  symbolic_state : List (Nat × Option Expr)
  input_bytes : List Expr
  constraints : List Expr
  ctxs : List ConcolicCallCtx

/-- Embedding of `ConcolicHost::pop_ctx`; panics with no saved context. -/
def ConcolicHostS.pop_ctx (h : ConcolicHostS) : Option ConcolicHostS :=
  match h.ctxs with
  | [] => Option.none
  | c :: rest =>
    some { h with symbolic_stack := c.symbolic_stack, symbolic_memory := c.symbolic_memory,
                  symbolic_state := c.symbolic_state, ctxs := rest }

/-- Embedding of `ConcolicHost::push_ctx`. The struct literal clones the
stack/memory/state before `get_slice` lazily resizes the memory, and the
resized memory is immediately replaced by a fresh one. -/
def ConcolicHostS.push_ctx (h : ConcolicHostS) (view : InterpView) :
    Option ConcolicHostS := do
  let args ←
    if view.opcode = 0xf1 ∨ view.opcode = 0xf2 then do
      let a ← view.stack[3]?
      let b ← view.stack[4]?
      pure (a, b)
    else if view.opcode = 0xf4 ∨ view.opcode = 0xfa then do
      let a ← view.stack[2]?
      let b ← view.stack[3]?
      pure (a, b)
    else Option.none
  let slice := (SymbolicMemory.get_slice h.symbolic_memory args.1 args.2).1
  let ctx : ConcolicCallCtx :=
    { symbolic_stack := h.symbolic_stack
      symbolic_memory := h.symbolic_memory
      symbolic_state := h.symbolic_state
      input_bytes := slice }
  pure { h with ctxs := ctx :: h.ctxs,
                symbolic_stack := [], symbolic_memory := [], symbolic_state := [] }

/-- Embedding of `ConcolicHost::get_input_slice_from_ctx`. -/
def ConcolicHostS.get_input_slice_from_ctx (h : ConcolicHostS) (idx length : Nat) :
    Option Expr := do
  match h.ctxs with
  | [] => Option.none
  | c :: _ => do
    let first ← c.input_bytes[idx]?
    let bytes := (List.range (length - 1)).foldl
      (fun acc j =>
        let i := idx + 1 + j
        if i ≥ c.input_bytes.length then Expr.concat acc (Expr.const_byte 0)
        else Expr.concat acc (c.input_bytes.getD i (Expr.const_byte 0)))
      first
    simplify bytes

/-- The `stack_bv!` macro: read the symbolic stack at depth `idx`, wrapping
an absent slot as a concrete-word leaf read from the concrete stack; panics
when either stack is too short. -/
def stackBV (h : ConcolicHostS) (view : InterpView) (idx : Nat) : Option Expr :=
  if idx < h.symbolic_stack.length then
    match h.symbolic_stack.getD idx Option.none with
    | some bv => some bv
    | Option.none => (view.stack[idx]?).map (fun u => Expr.leaf (.EVMU256 u))
  else Option.none

/-- The `concrete_eval!` macro: `inCnt` silent `Vec::pop`s and an output
list of `outCnt` absent results. -/
def ConcolicHostS.concreteEval (h : ConcolicHostS) (inCnt outCnt : Nat) :
    ConcolicHostS × List (Option Expr) :=
  ({ h with symbolic_stack := h.symbolic_stack.drop inCnt }, List.replicate outCnt Option.none)

/-- The `concrete_eval_with_action!` macro: pop `inCnt`, push `outCnt`
absent slots directly, then run `push_ctx`. -/
def ConcolicHostS.concreteEvalAction (h : ConcolicHostS) (view : InterpView)
    (inCnt outCnt : Nat) : Option (ConcolicHostS × List (Option Expr)) := do
  let st := List.replicate outCnt (Option.none : Option Expr) ++ h.symbolic_stack.drop inCnt
  let h1 := { h with symbolic_stack := st }
  let h2 ← h1.push_ctx view
  pure (h2, [])

/-- The final push loop of `ConcolicHost::on_step`: results that are present
and concrete collapse to an absent slot; `is_concrete` panics propagate. -/
def pushResults (h : ConcolicHostS) : List (Option Expr) → Option ConcolicHostS
  | [] => some h
  | v :: rest =>
    match v with
    | Option.none => pushResults { h with symbolic_stack := Option.none :: h.symbolic_stack } rest
    | some e =>
      match e.is_concrete with
      | Option.none => Option.none
      | some true => pushResults { h with symbolic_stack := Option.none :: h.symbolic_stack } rest
      | some false => pushResults { h with symbolic_stack := some e :: h.symbolic_stack } rest

/-- Pop `n` slots from the symbolic stack by silent `Vec::pop` (no panic on
an empty stack). -/
def ConcolicHostS.dropStack (h : ConcolicHostS) (n : Nat) : ConcolicHostS :=
  { h with symbolic_stack := h.symbolic_stack.drop n }

/-- A binary arm of `ConcolicHost::on_step`: build `f (stack_bv 0)
(stack_bv 1)`, then pop twice. -/
def ConcolicHostS.binArm (h : ConcolicHostS) (view : InterpView)
    (f : Expr → Expr → Expr) : Option (ConcolicHostS × List (Option Expr)) := do
  let a ← stackBV h view 0
  let b ← stackBV h view 1
  pure (h.dropStack 2, [some (f a b)])

/-- A shift arm of `ConcolicHost::on_step`: build `f (stack_bv 1)
(stack_bv 0)` (note the swapped operand order in the source), then pop
twice. -/
def ConcolicHostS.shiftArm (h : ConcolicHostS) (view : InterpView)
    (f : Expr → Expr → Expr) : Option (ConcolicHostS × List (Option Expr)) := do
  let a ← stackBV h view 1
  let b ← stackBV h view 0
  pure (h.dropStack 2, [some (f a b)])

/-- A ternary arm (ADDMOD/MULMOD): `stack_bv 0 ⊕ stack_bv 1` then `bvsmod`
with `stack_bv 2`, then pop three times. -/
def ConcolicHostS.ternArm (h : ConcolicHostS) (view : InterpView)
    (f : Expr → Expr → Expr) : Option (ConcolicHostS × List (Option Expr)) := do
  let a ← stackBV h view 0
  let b ← stackBV h view 1
  let c ← stackBV h view 2
  pure (h.dropStack 3, [some (Expr.bvsmod (f a b) c)])

/-- Embedding of `ConcolicHost::on_step`
(src/evm/concolic/concolic_host.rs). Returns the updated shadow state;
`Option.none` is a panic (including the `todo!` reached through MSTORE8 and
the `panic!` on an opcode missing from the table). The debug-feature block
and the empty `solutions` plumbing have no effect and are omitted. -/
def concolicOnStep (view : InterpView) (h : ConcolicHostS) : Option ConcolicHostS := do
  let op := view.opcode
  let step : Option (ConcolicHostS × List (Option Expr)) ←
    if op = 0x01 then h.binArm view Expr.add
    else if op = 0x02 then h.binArm view Expr.mul
    else if op = 0x03 then h.binArm view Expr.sub
    else if op = 0x04 then h.binArm view Expr.div
    else if op = 0x05 then h.binArm view Expr.bvsdiv
    else if op = 0x06 then h.binArm view Expr.bvurem
    else if op = 0x07 then h.binArm view Expr.bvsmod
    else if op = 0x08 then h.ternArm view Expr.add
    else if op = 0x09 then h.ternArm view Expr.mul
    else if op = 0x0a then pure (h.concreteEval 2 1)
    else if op = 0x0b then pure (h.concreteEval 2 1)
    else if op = 0x10 then h.binArm view Expr.bvult
    else if op = 0x11 then h.binArm view Expr.bvugt
    else if op = 0x12 then h.binArm view Expr.bvslt
    else if op = 0x13 then h.binArm view Expr.bvsgt
    else if op = 0x14 then h.binArm view Expr.equal
    else if op = 0x15 then do
      let a ← stackBV h view 0
      pure (h.dropStack 1, [some (Expr.equal a (Expr.leaf (.EVMU256 0)))])
    else if op = 0x16 then h.binArm view Expr.bvand
    else if op = 0x17 then h.binArm view Expr.bvor
    else if op = 0x18 then h.binArm view Expr.bvxor
    else if op = 0x19 then do
      let a ← stackBV h view 0
      pure (h.dropStack 1, [some (Expr.bvnot a)])
    else if op = 0x1a then pure (h.concreteEval 2 1)
    else if op = 0x1b then h.shiftArm view Expr.bvshl
    else if op = 0x1c then h.shiftArm view Expr.bvlshr
    else if op = 0x1d then h.shiftArm view Expr.bvsar
    else if op = 0x20 then pure (h.concreteEval 2 1)
    else if op = 0x30 then pure (h, [Option.none])
    else if op = 0x31 then pure (h.concreteEval 1 1)
    else if op = 0x32 then pure (h, [Option.none])
    else if op = 0x33 then
      if h.ctxs.length > 0 then pure (h, [Option.none])
      else pure (h, [some Expr.new_caller])
    else if op = 0x34 then
      if h.ctxs.length > 0 then pure (h, [Option.none])
      else pure (h, [some Expr.new_callvalue])
    else if op = 0x35 then do
      let offsetW ← view.stack[0]?
      let h1 := h.dropStack 1
      if h1.ctxs.length > 0 then do
        let e ← h1.get_input_slice_from_ctx (asU64 offsetW) 32
        pure (h1, [some e])
      else pure (h1, [some (Expr.new_sliced_input offsetW)])
    else if op = 0x36 then pure (h, [Option.none])
    else if op = 0x37 then pure (h.concreteEval 3 0)
    else if op = 0x38 then pure (h, [Option.none])
    else if op = 0x39 then pure (h.concreteEval 3 0)
    else if op = 0x3a then pure (h, [Option.none])
    else if op = 0x3b then pure (h.concreteEval 1 1)
    else if op = 0x3c then pure (h.concreteEval 4 0)
    else if op = 0x3d then pure (h, [Option.none])
    else if op = 0x3e then pure (h.concreteEval 3 0)
    else if op = 0x3f then pure (h.concreteEval 1 1)
    else if op = 0x40 then pure (h.concreteEval 1 1)
    else if 0x41 ≤ op ∧ op ≤ 0x48 then pure (h, [Option.none])
    else if op = 0x50 then pure (h.dropStack 1, [])
    else if op = 0x51 then do
      let offset ← view.stack[0]?
      let h1 := h.dropStack 1
      let r ← SymbolicMemory.get_256 h1.symbolic_memory offset
      pure (h1, [r])
    else if op = 0x52 then do
      let offset ← view.stack[0]?
      let value ← stackBV h view 1
      let h1 := { h with symbolic_memory := SymbolicMemory.insert_256 h.symbolic_memory offset value }
      pure (h1.dropStack 2, [])
    else if op = 0x53 then do
      let offset ← view.stack[0]?
      let value ← stackBV h view 1
      let mem ← SymbolicMemory.insert_8 h.symbolic_memory offset value
      let h1 := { h with symbolic_memory := mem }
      pure (h1.dropStack 2, [])
    else if op = 0x54 then do
      let h1 := h.dropStack 1
      let key ← view.stack[0]?
      pure (h1, [(alistGet h1.symbolic_state key).getD Option.none])
    else if op = 0x55 then do
      let key ← view.stack[1]?
      let value ← stackBV h view 0
      let h1 := { h with symbolic_state := alistInsert key (some value) h.symbolic_state }
      pure (h1.dropStack 2, [])
    else if op = 0x56 then pure (h.concreteEval 1 0)
    else if op = 0x57 then do
      let condW ← view.stack[1]?
      let br := condW = 0
      let c ← stackBV h view 1
      let realPathConstraint := if br then Expr.lnot c else c
      let isConc ← realPathConstraint.is_concrete
      let h1 :=
        if isConc then h
        else { h with constraints := h.constraints ++ [realPathConstraint] }
      pure (h1.dropStack 2, [])
    else if op = 0x58 ∨ op = 0x59 ∨ op = 0x5a then pure (h, [Option.none])
    else if op = 0x5b then pure (h, [])
    else if 0x60 ≤ op ∧ op ≤ 0x7f then pure (h, [Option.none])
    else if 0x80 ≤ op ∧ op ≤ 0x8f then do
      let n := op - 0x80
      let v ← stackBV h view n
      pure (h, [some v])
    else if 0x90 ≤ op ∧ op ≤ 0x9f then do
      let n := op - 0x90 + 1
      let swapper ← stackBV h view n
      let swappee ← stackBV h view 0
      if h.symbolic_stack.length = 0 then Option.none
      else
        let st := (h.symbolic_stack.set 0 (some swapper)).set n (some swappee)
        pure ({ h with symbolic_stack := st }, [])
    else if 0xa0 ≤ op ∧ op ≤ 0xa4 then
      let n := op - 0xa0
      pure (h.concreteEval (n + 2) 0)
    else if op = 0xf0 then pure (h.concreteEval 3 1)
    else if op = 0xf1 ∨ op = 0xf2 then h.concreteEvalAction view 7 1
    else if op = 0xf3 then pure (h, [])
    else if op = 0xf4 then h.concreteEvalAction view 6 1
    else if op = 0xf5 then pure (h.concreteEval 4 1)
    else if op = 0xfa then h.concreteEvalAction view 6 1
    else if op = 0xfd then pure (h.concreteEval 2 0)
    else if op = 0xfe then pure (h, [])
    else if op = 0xff then pure (h.concreteEval 1 0)
    else if op = 0x00 then pure (h, [])
    else Option.none
  pushResults step.1 step.2

/-- Halt statuses of the patched interpreter used by the engine
(`InstructionResult`); the variants the engine's matches name, plus `Other`
collapsing the remaining non-success codes. -/
inductive InstructionResult : Type where
  | Return
  | Stop
  | SelfDestruct
  | ControlLeak
  | ArbitraryExternalCallAddressBounded (a b c : Nat)
  | Revert
  | Other (code : Nat)
deriving DecidableEq

/-- Embedding of `MAX_POST_EXECUTION` (src/evm/vm.rs). -/
def MAX_POST_EXECUTION : Nat := 10

/-- Embedding of the `is_call_success!` macro. -/
def is_call_success (r : InstructionResult) : Bool :=
  r = .Return ∨ r = .Stop ∨ r = .ControlLeak ∨ r = .SelfDestruct

/-- Embedding of `SinglePostExecution` (one suspended frame). Memory and
input are byte lists; the stack is in `Vec` order (bottom first). -/
structure SinglePostExecution : Type where
  program_counter : Nat
  instruction_result : InstructionResult
  memory : List Nat
  stack : List Nat
  return_range : Nat × Nat
  is_static : Bool
  input : List Nat
  code_address : Nat
  address : Nat
  caller : Nat
  value : Nat
  output_len : Nat
  output_offset : Nat
deriving DecidableEq

/-- Embedding of `PostExecutionCtx`. -/
structure PostExecutionCtx : Type where
  pes : List SinglePostExecution
  must_step : Bool
deriving DecidableEq

/-- Embedding of `EVMState`: per-address storage, the pending continuation
list (in `Vec` order: the last element is the most recent), and the bug
signal sets. -/
structure EVMState : Type where
  state : List (Nat × List (Nat × Nat))
  post_execution : List PostExecutionCtx
  bug_hit : Bool
  self_destruct : List (Nat × Nat)
  typed_bug : List (String × (Nat × Nat))
  arbitrary_calls : List (Nat × Nat × Nat)
deriving DecidableEq

/-- Embedding of `EVMState::new` / `Default`. -/
def EVMState.new : EVMState :=
  ⟨[], [], false, [], [], []⟩

/-- One value fed to the hasher inside `get_hash`. -/
inductive HashItem : Type where
  | num (n : Nat)
  | flag (b : Bool)
  | bytes (l : List Nat)
  | irange (lo hi : Nat)
deriving DecidableEq

/-- Embedding of `SinglePostExecution::hash`: the sequence of fields fed to
the hasher, in source order. -/
def SinglePostExecution.hashT (pe : SinglePostExecution) : List HashItem :=
  [.num pe.program_counter, .bytes pe.memory, .bytes pe.stack,
   .irange pe.return_range.1 pe.return_range.2, .flag pe.is_static,
   .bytes pe.input, .num pe.code_address, .num pe.address, .num pe.caller,
   .num pe.value, .num pe.output_len, .num pe.output_offset]

/-- Embedding of `PostExecutionCtx::hash`. -/
def PostExecutionCtx.hashT (c : PostExecutionCtx) : List HashItem :=
  (c.pes.map SinglePostExecution.hashT).flatten

/-- Insertion step for sorting the outer storage map by address
(the `sorted_by_key` in `get_hash`). -/
def insertSorted (p : Nat × List (Nat × Nat)) :
    List (Nat × List (Nat × Nat)) → List (Nat × List (Nat × Nat))
  | [] => [p]
  | q :: rest => if p.1 ≤ q.1 then p :: q :: rest else q :: insertSorted p rest

def sortByKey (l : List (Nat × List (Nat × Nat))) : List (Nat × List (Nat × Nat)) :=
  l.foldr insertSorted []

/-- Embedding of `VMStateT::get_hash` for `EVMState`, as the transcript of
values fed to the `DefaultHasher`: every pending continuation context first,
then the storage sorted by address. The external hasher's digest is a
function of exactly this transcript, so distinct `get_hash` inputs are
distinct transcripts. -/
def EVMState.get_hash (s : EVMState) : List HashItem :=
  (s.post_execution.map PostExecutionCtx.hashT).flatten ++
  ((sortByKey s.state).map
    (fun p => HashItem.num p.1 :: (p.2.map (fun kv => [HashItem.num kv.1, HashItem.num kv.2])).flatten)).flatten

/-- Map-semantics equality of two storage association lists (the `==` of
`HashMap<EVMU256, EVMU256>`). -/
def mapEqB (a b : List (Nat × Nat)) : Bool :=
  a.all (fun p => alistGet b p.1 == alistGet a p.1) &&
  b.all (fun p => alistGet a p.1 == alistGet b p.1)

def optMapEq : Option (List (Nat × Nat)) → Option (List (Nat × Nat)) → Bool
  | some x, some y => mapEqB x y
  | Option.none, Option.none => true
  | _, _ => false

/-- Map-semantics equality of the outer `HashMap<EVMAddress, HashMap<..>>`. -/
def stateEqB (a b : List (Nat × List (Nat × Nat))) : Bool :=
  a.all (fun p => optMapEq (alistGet a p.1) (alistGet b p.1)) &&
  b.all (fun p => optMapEq (alistGet a p.1) (alistGet b p.1))

/-- Embedding of `VMStateT::eq` for `EVMState`: compares only the
per-address storage mapping. -/
def EVMState.veq (s o : EVMState) : Bool :=
  stateEqB s.state o.state

/-- Embedding of `StagedVMState` (the `TxnTrace` field, external to this
core, is omitted). -/
structure StagedVMState : Type where
  state : EVMState
  stage : List Nat
  initialized : Bool
deriving DecidableEq

/-- Embedding of `StagedVMState::new_uninitialized`. -/
def StagedVMState.new_uninitialized : StagedVMState :=
  ⟨EVMState.new, [], false⟩

/-- Embedding of `StagedVMState::new_with_state`. -/
def StagedVMState.new_with_state (s : EVMState) : StagedVMState :=
  ⟨s, [], true⟩

/-- Embedding of `ExecutionResult` as produced by `execute_abi`. -/
structure ExecutionResult : Type where
  output : List Nat
  reverted : Bool
  new_state : StagedVMState
  additional_info : Option (List Nat)
deriving DecidableEq

/-- Embedding of `IntermediateExecutionResult`. -/
structure IntermediateExecutionResult : Type where
  output : List Nat
  new_state : EVMState
  pc : Nat
  ret : InstructionResult
  stack : List Nat
  memory : List Nat
deriving DecidableEq

/-- The `reverted` mapping at the end of `execute_abi` (src/evm/vm.rs
lines 647-654). -/
def revertedOf : InstructionResult → Bool
  | .Return => false
  | .Stop => false
  | .ControlLeak => false
  | .SelfDestruct => false
  | .ArbitraryExternalCallAddressBounded _ _ _ => false
  | _ => true

/-- Terminal control-leak statuses (the first match in the tail of
`execute_abi`). -/
def isLeakRet : InstructionResult → Bool
  | .ControlLeak => true
  | .ArbitraryExternalCallAddressBounded _ _ _ => true
  | _ => false

/-- The `must_step` flag chosen when pushing a continuation group. -/
def mustStepOf : InstructionResult → Bool
  | .ControlLeak => false
  | .ArbitraryExternalCallAddressBounded _ _ _ => true
  | _ => false

/-- `HashSet::from_iter` over a chained iterator. -/
def hsetOfList {α : Type} [BEq α] (l : List α) : List α :=
  l.foldl (fun acc x => hsetInsert x acc) []

/-- Embedding of the tail of `EVMExecutor::execute_abi` (src/evm/vm.rs lines
596-667): the processing after the step loop selects the terminal result.
Arguments: the terminal intermediate result, the host's captured
continuation frames (`leak_ctx`), the input world state (`vm_state`) and the
host's per-run bug sets, and the host's `call_count`. -/
def executeAbiEnd (r : IntermediateExecutionResult) (leak_ctx : List SinglePostExecution)
    (vm_state : EVMState) (current_typed_bug : List (String × (Nat × Nat)))
    (current_self_destructs : List (Nat × Nat))
    (current_arbitrary_calls : List (Nat × Nat × Nat)) (call_count : Nat) :
    ExecutionResult :=
  if isLeakRet r.ret ∧ r.new_state.post_execution.length + 1 > MAX_POST_EXECUTION then
    { output := r.output
      reverted := true
      new_state := StagedVMState.new_uninitialized
      additional_info := Option.none }
  else
    let st1 :=
      if isLeakRet r.ret then
        { r.new_state with post_execution :=
            r.new_state.post_execution ++ [⟨leak_ctx, mustStepOf r.ret⟩] }
      else r.new_state
    let st2 :=
      { st1 with
        typed_bug := hsetOfList (vm_state.typed_bug ++ current_typed_bug)
        self_destruct := hsetOfList (vm_state.self_destruct ++ current_self_destructs)
        arbitrary_calls := hsetOfList (vm_state.arbitrary_calls ++ current_arbitrary_calls) }
    { output := r.output
      reverted := revertedOf r.ret
      new_state := StagedVMState.new_with_state st2
      additional_info := if r.ret = .ControlLeak then some [call_count % 256] else Option.none }

/-- The early return of `execute_from_pc` when the code map has no entry for
the target address (src/evm/vm.rs lines 455-471): an immediate revert with
a fresh empty state. -/
def executeFromPc_noCode : IntermediateExecutionResult :=
  { output := [], new_state := EVMState.new, pc := 0, ret := .Revert, stack := [], memory := [] }

/-- Contract identity data carried by the rebuilt interpreter. -/
structure Contract : Type where
  input : List Nat
  code_address : Nat
  address : Nat
  caller : Nat
  value : Nat
deriving DecidableEq

/-- The interpreter fields restored by `SinglePostExecution::get_interpreter`
(stack in `Vec` order, bottom first). -/
structure Interp : Type where
  program_counter : Nat
  instruction_result : InstructionResult
  memory : List Nat
  stack : List Nat
  return_data_buffer : List Nat
  return_range : Nat × Nat
  is_static : Bool
  contract : Contract
deriving DecidableEq

/-- Modelled from the spec: the concrete interpreter's stack is the external
revm `Stack`, whose `push` fails when the 1024-slot bound is reached; the
rebuild loop ignores that failure (`let _ = stack.push(v)`). -/
def STACK_LIMIT : Nat := 1024

def rebuildStack (data : List Nat) : List Nat :=
  data.foldl (fun acc v => if acc.length < STACK_LIMIT then acc ++ [v] else acc) []

/-- Embedding of `SinglePostExecution::get_interpreter`: rebuild the
interpreter at the recorded program counter with the snapshot's memory,
stack, static flag and call identity. -/
def SinglePostExecution.get_interpreter (pe : SinglePostExecution) : Interp :=
  { program_counter := pe.program_counter
    instruction_result := pe.instruction_result
    memory := pe.memory
    stack := rebuildStack pe.stack
    return_data_buffer := []
    return_range := pe.return_range
    is_static := pe.is_static
    contract := { input := pe.input, code_address := pe.code_address,
                  address := pe.address, caller := pe.caller, value := pe.value } }

/-- Modelled from the spec: the external revm `Memory::set`, which copies
`value` over `data[offset .. offset + value.len()]`; an empty slice writes
nothing, and on resumption the output window recorded at suspension lies
inside the snapshot memory. `Option.none` marks an out-of-range write. -/
def memSet (mem : List Nat) (offset : Nat) (value : List Nat) : Option (List Nat) :=
  if value.length = 0 then some mem
  else if offset + value.length ≤ mem.length then
    some (mem.take offset ++ value ++ mem.drop (offset + value.length))
  else Option.none

/-- Embedding of the continuation branch of `execute_from_pc` (src/evm/vm.rs
lines 474-496): rebuild the interpreter from the supplied
`SinglePostExecution`, set the return buffer to the replay payload minus its
first four bytes (`data.slice(4..)` panics on shorter input), and write the
first `min(output_len, buffer.len())` buffer bytes at `output_offset`. -/
def executeFromPcResume (pe : SinglePostExecution) (data : List Nat) : Option Interp := do
  if data.length < 4 then Option.none
  else
    let interp := pe.get_interpreter
    let buf := data.drop 4
    let targetLen := min pe.output_len buf.length
    let mem ← memSet interp.memory pe.output_offset (buf.take targetLen)
    pure { interp with return_data_buffer := buf, memory := mem }

/-- Modelled from the spec: the concrete interpreter executes EVM bytecode
("stack-machine smart-contract bytecode"); the EVM's EXTCODECOPY opcode
(0x3c) consumes four stack words (address, destination offset, code offset,
length) and pushes none. -/
def evmExtcodecopyPops : Nat := 4

def evmExtcodecopyPushes : Nat := 0

/-- Recursion-friendly packaging of the fixed-point property of a child's
simplification result. -/
def GoodInfo (info : Option (ConcatOptCtx × Expr)) : Prop :=
  ∀ p : ConcatOptCtx × Expr, info = some p →
    simplifyHelper p.2 = some p ∧
      ∀ s, p.1.on_expr = OExpr.some s → ∃ cs, simplifyHelper s = some (cs, s)

theorem size_pos (e : Expr) : 1 ≤ Expr.size e := by
  cases e with
  | mk l r op => simp only [Expr.size]; omega

theorem is_concrete_eq_aux :
    ∀ (n : Nat) (e : Expr), Expr.size e ≤ n → Expr.wf e = true →
      Expr.is_concrete e = some (Expr.allLeavesConcrete e) := by
  intro n
  induction n with
  | zero =>
    intro e hs _
    exact absurd (le_trans (size_pos e) hs) (by omega)
  | succ n ih =>
    intro e hs hwf
    cases e with
    | mk l r op =>
      cases l with
      | none =>
        cases r with
        | none =>
          simp only [Expr.wf] at hwf
          cases op <;>
            simp_all [leafConcrete, isLeafOp, isConcreteLeafOp, Expr.is_concrete,
              Expr.allLeavesConcrete]
        | some r' => simp [Expr.wf] at hwf
      | some l' =>
        have hl : Expr.size l' ≤ n := by
          simp only [Expr.size, OExpr.osize] at hs
          omega
        cases r with
        | none =>
          simp only [Expr.wf] at hwf
          simp [Expr.is_concrete, Expr.allLeavesConcrete, ih l' hl hwf]
        | some r' =>
          have hr : Expr.size r' ≤ n := by
            simp only [Expr.size, OExpr.osize] at hs
            omega
          simp only [Expr.wf, Bool.and_eq_true] at hwf
          have e1 := ih l' hl hwf.1
          have e2 := ih r' hr hwf.2
          simp only [Expr.is_concrete, Expr.allLeavesConcrete, e1, e2]
          cases hc : Expr.allLeavesConcrete l' <;> simp [hc, e2]

theorem env_count_aux :
    ∀ (n : Nat) (e : Expr), Expr.size e ≤ n → Expr.wf e = true →
      (Expr.allLeavesConcrete e = true ↔ Expr.envLeafCount e = 0) := by
  intro n
  induction n with
  | zero =>
    intro e hs _
    exact absurd (le_trans (size_pos e) hs) (by omega)
  | succ n ih =>
    intro e hs hwf
    cases e with
    | mk l r op =>
      cases l with
      | none =>
        cases r with
        | none =>
          simp only [Expr.wf] at hwf
          cases op <;>
            simp_all [isLeafOp, isConcreteLeafOp, Expr.allLeavesConcrete, Expr.envLeafCount]
        | some r' => simp [Expr.wf] at hwf
      | some l' =>
        have hl : Expr.size l' ≤ n := by
          simp only [Expr.size, OExpr.osize] at hs
          omega
        cases r with
        | none =>
          simp only [Expr.wf] at hwf
          simpa [Expr.allLeavesConcrete, Expr.envLeafCount] using ih l' hl hwf
        | some r' =>
          have hr : Expr.size r' ≤ n := by
            simp only [Expr.size, OExpr.osize] at hs
            omega
          simp only [Expr.wf, Bool.and_eq_true] at hwf
          have e1 := ih l' hl hwf.1
          have e2 := ih r' hr hwf.2
          simp only [Expr.allLeavesConcrete, Expr.envLeafCount, Bool.and_eq_true, e1, e2]
          omega

/-- C6: `is_concrete` is `true` on the two concrete leaves, `false` on every
environment leaf (caller, call-value, balance, sliced-input-at-offset,
sliced-input-range, symbolic byte); on a well-formed composite node it is
the conjunction of the children's concreteness; consequently a well-formed
expression with no environment leaf is concrete and one with exactly one
environment leaf is not. -/
theorem c6_is_concrete :
    (∀ v : Nat, (Expr.leaf (.EVMU256 v)).is_concrete = some true) ∧
    (∀ b : Nat, (Expr.const_byte b).is_concrete = some true) ∧
    Expr.new_caller.is_concrete = some false ∧
    Expr.new_callvalue.is_concrete = some false ∧
    Expr.new_balance.is_concrete = some false ∧
    (∀ i : Nat, (Expr.new_sliced_input i).is_concrete = some false) ∧
    (∀ a b : Nat, (Expr.sliced_input a b).is_concrete = some false) ∧
    (∀ s : String, (Expr.sym_byte s).is_concrete = some false) ∧
    (∀ (l r : Expr) (op : ConcolicOp), Expr.wf (Expr.mk (.some l) (.some r) op) = true →
      (Expr.mk (.some l) (.some r) op).is_concrete
        = some (l.allLeavesConcrete && r.allLeavesConcrete)) ∧
    (∀ (l : Expr) (op : ConcolicOp), Expr.wf (Expr.mk (.some l) .none op) = true →
      (Expr.mk (.some l) .none op).is_concrete = some l.allLeavesConcrete) ∧
    (∀ e : Expr, Expr.wf e = true → Expr.envLeafCount e = 0 →
      Expr.is_concrete e = some true) ∧
    (∀ e : Expr, Expr.wf e = true → Expr.envLeafCount e = 1 →
      Expr.is_concrete e = some false) := by
  refine ⟨?_, ?_, ?_, ?_, ?_, ?_, ?_, ?_, ?_, ?_, ?_, ?_⟩
  · intro v; rfl
  · intro b; rfl
  · rfl
  · rfl
  · rfl
  · intro i; rfl
  · intro a b; rfl
  · intro s; rfl
  · intro l r op hwf
    have h := is_concrete_eq_aux (Expr.size (Expr.mk (.some l) (.some r) op)) _ le_rfl hwf
    simpa [Expr.allLeavesConcrete] using h
  · intro l op hwf
    have h := is_concrete_eq_aux (Expr.size (Expr.mk (.some l) .none op)) _ le_rfl hwf
    simpa [Expr.allLeavesConcrete] using h
  · intro e hwf hcount
    have h := is_concrete_eq_aux (Expr.size e) e le_rfl hwf
    have h2 := (env_count_aux (Expr.size e) e le_rfl hwf).mpr hcount
    rw [h, h2]
  · intro e hwf hcount
    have h := is_concrete_eq_aux (Expr.size e) e le_rfl hwf
    have h2 : Expr.allLeavesConcrete e = false := by
      cases hc : Expr.allLeavesConcrete e with
      | false => rfl
      | true =>
        have := (env_count_aux (Expr.size e) e le_rfl hwf).mp hc
        omega
    rw [h, h2]

/-- Witness for C6: a two-operator tree over concrete leaves is concrete,
and replacing one leaf by the caller leaf (one environment leaf) makes the
root non-concrete. -/
theorem c6_is_concrete_witness :
    (Expr.add (Expr.leaf (.EVMU256 3)) (Expr.mul (Expr.leaf (.EVMU256 4))
      (Expr.const_byte 5))).is_concrete = some true ∧
    (Expr.add Expr.new_caller (Expr.mul (Expr.leaf (.EVMU256 4))
      (Expr.const_byte 5))).is_concrete = some false := by
  constructor
  · exact c6_is_concrete.2.2.2.2.2.2.2.2.2.2.1 _ (by decide) (by decide)
  · exact c6_is_concrete.2.2.2.2.2.2.2.2.2.2.2 _ (by decide) (by decide)

theorem merge_spec (cl cr : ConcatOptCtx) (h : (cl.merge cr).1 = true) :
    cr.on_expr = cl.on_expr ∧ cl.on_expr ≠ OExpr.none ∧
      (cl.merge cr).2.on_expr = cl.on_expr := by
  by_cases hA : (cr.on_expr ≠ cl.on_expr ∨ cr.on_expr = OExpr.none ∨ cl.on_expr = OExpr.none)
  · unfold ConcatOptCtx.merge at h
    rw [if_pos hA] at h
    simp at h
  · have hA2 := hA
    push_neg at hA2
    refine ⟨hA2.1, hA2.2.2, ?_⟩
    unfold ConcatOptCtx.merge
    rw [if_neg hA]
    by_cases hB : cl.low = cr.high + 1
    · rw [if_pos hB]
    · rw [if_neg hB]
      by_cases hC : cl.high + 1 = cr.low
      · rw [if_pos hC]
      · unfold ConcatOptCtx.merge at h
        rw [if_neg hA, if_neg hB, if_neg hC] at h
        simp at h

theorem simplifyCore_default (li ri : Option (ConcatOptCtx × Expr)) (op : ConcolicOp)
    (h1 : op ≠ .CONCAT) (h2 : ∀ hi lo, op ≠ .SELECT hi lo) :
    simplifyCore li ri op = some (⟨0, 0, OExpr.none⟩, Expr.mk (infoToOE li) (infoToOE ri) op) := by
  cases op <;> first
    | rfl
    | exact absurd rfl h1
    | exact absurd rfl (h2 _ _)

theorem goodInfo_rerun (li : Option (ConcatOptCtx × Expr)) (gli : GoodInfo li) :
    simplifyHelperO (infoToOE li) = some li := by
  cases li with
  | none => simp [infoToOE, simplifyHelperO]
  | some p =>
    obtain ⟨cc, ee⟩ := p
    obtain ⟨hh, _⟩ := gli (cc, ee) rfl
    simp [infoToOE, simplifyHelperO, hh]

theorem core_concat_fix (lhsInfo rhsInfo : Option (ConcatOptCtx × Expr))
    (gl : GoodInfo lhsInfo) (gr : GoodInfo rhsInfo) (c : ConcatOptCtx) (e' : Expr)
    (heq : simplifyCore lhsInfo rhsInfo .CONCAT = some (c, e')) :
    simplifyHelper e' = some (c, e') ∧
      ∀ s, c.on_expr = OExpr.some s → ∃ cs, simplifyHelper s = some (cs, s) := by
  rcases lhsInfo with _ | ⟨lhsCtx, le⟩
  · simp [simplifyCore] at heq
  rcases rhsInfo with _ | ⟨rhsCtx, re⟩
  · simp [simplifyCore] at heq
  · simp only [simplifyCore] at heq
    by_cases hm : (lhsCtx.merge rhsCtx).1 = true
    · rw [if_pos hm] at heq
      simp only [Option.some.injEq, Prod.mk.injEq] at heq
      obtain ⟨hc, he⟩ := heq
      obtain ⟨hcr, hne, hmon⟩ := merge_spec lhsCtx rhsCtx hm
      obtain ⟨s, hs⟩ : ∃ s, lhsCtx.on_expr = OExpr.some s := by
        cases hx : lhsCtx.on_expr with
        | none => exact absurd hx hne
        | some s => exact ⟨s, rfl⟩
      obtain ⟨hle, hgood⟩ := gl (lhsCtx, le) rfl
      obtain ⟨cs, hcs⟩ := hgood s hs
      have hm2 : (lhsCtx.merge rhsCtx).2.on_expr = OExpr.some s := by rw [hmon, hs]
      subst hc he
      have hcasteq : (⟨(lhsCtx.merge rhsCtx).2.low, (lhsCtx.merge rhsCtx).2.high,
          OExpr.some s⟩ : ConcatOptCtx) = (lhsCtx.merge rhsCtx).2 := by
        rw [← hm2]
      constructor
      · simp only [simplifyHelper, simplifyHelperO, hm2, hcs, simplifyCore, infoToOE, hcasteq]
      · intro s' hs'
        rw [hm2] at hs'
        cases hs'
        exact ⟨cs, hcs⟩
    · rw [if_neg hm] at heq
      simp only [Option.some.injEq, Prod.mk.injEq] at heq
      obtain ⟨hc, he⟩ := heq
      obtain ⟨hle, _⟩ := gl (lhsCtx, le) rfl
      obtain ⟨hre, _⟩ := gr (rhsCtx, re) rfl
      subst hc he
      constructor
      · simp only [simplifyHelper, simplifyHelperO, hle, hre, simplifyCore]
        rw [if_neg hm]
      · intro s hs
        simp at hs

theorem core_select_fix (lhsInfo rhsInfo : Option (ConcatOptCtx × Expr)) (hi lo : Nat)
    (gl : GoodInfo lhsInfo) (gr : GoodInfo rhsInfo) (c : ConcatOptCtx) (e' : Expr)
    (heq : simplifyCore lhsInfo rhsInfo (.SELECT hi lo) = some (c, e')) :
    simplifyHelper e' = some (c, e') ∧
      ∀ s, c.on_expr = OExpr.some s → ∃ cs, simplifyHelper s = some (cs, s) := by
  rcases lhsInfo with _ | ⟨cl, le⟩
  · simp [simplifyCore] at heq
  · simp only [simplifyCore, Option.some.injEq, Prod.mk.injEq] at heq
    obtain ⟨hc, he⟩ := heq
    obtain ⟨hle, _⟩ := gl (cl, le) rfl
    subst hc he
    constructor
    · have hR := goodInfo_rerun rhsInfo gr
      simp only [simplifyHelper, simplifyHelperO, hle, hR, simplifyCore]
    · intro s hs
      cases hs
      exact ⟨cl, hle⟩

theorem core_default_fix (lhsInfo rhsInfo : Option (ConcatOptCtx × Expr)) (op : ConcolicOp)
    (h1 : op ≠ .CONCAT) (h2 : ∀ hi lo, op ≠ .SELECT hi lo)
    (gl : GoodInfo lhsInfo) (gr : GoodInfo rhsInfo) (c : ConcatOptCtx) (e' : Expr)
    (heq : simplifyCore lhsInfo rhsInfo op = some (c, e')) :
    simplifyHelper e' = some (c, e') ∧
      ∀ s, c.on_expr = OExpr.some s → ∃ cs, simplifyHelper s = some (cs, s) := by
  rw [simplifyCore_default lhsInfo rhsInfo op h1 h2] at heq
  simp only [Option.some.injEq, Prod.mk.injEq] at heq
  obtain ⟨hc, he⟩ := heq
  subst hc he
  constructor
  · have hL := goodInfo_rerun lhsInfo gl
    have hR := goodInfo_rerun rhsInfo gr
    simp only [simplifyHelper, hL, hR]
    exact simplifyCore_default lhsInfo rhsInfo op h1 h2
  · intro s hs
    simp at hs

theorem simplifyCore_fix (lhsInfo rhsInfo : Option (ConcatOptCtx × Expr)) (op : ConcolicOp)
    (gl : GoodInfo lhsInfo) (gr : GoodInfo rhsInfo) (c : ConcatOptCtx) (e' : Expr)
    (heq : simplifyCore lhsInfo rhsInfo op = some (c, e')) :
    simplifyHelper e' = some (c, e') ∧
      ∀ s, c.on_expr = OExpr.some s → ∃ cs, simplifyHelper s = some (cs, s) := by
  cases op <;> first
    | exact core_concat_fix lhsInfo rhsInfo gl gr c e' heq
    | exact core_select_fix lhsInfo rhsInfo _ _ gl gr c e' heq
    | exact core_default_fix lhsInfo rhsInfo _ (by simp) (by simp) gl gr c e' heq

theorem helper_fix_aux :
    ∀ (n : Nat) (e : Expr), Expr.size e ≤ n → ∀ (c : ConcatOptCtx) (e' : Expr),
      simplifyHelper e = some (c, e') →
      simplifyHelper e' = some (c, e') ∧
        ∀ s, c.on_expr = OExpr.some s → ∃ cs, simplifyHelper s = some (cs, s) := by
  intro n
  induction n with
  | zero =>
    intro e hs
    exact absurd (le_trans (size_pos e) hs) (by omega)
  | succ n ih =>
    intro e hs c e' heq
    cases e with
    | mk l r op =>
      rw [simplifyHelper] at heq
      cases hl : simplifyHelperO l with
      | none => rw [hl] at heq; simp at heq
      | some lhsInfo =>
        cases hr : simplifyHelperO r with
        | none => rw [hl, hr] at heq; simp at heq
        | some rhsInfo =>
          rw [hl, hr] at heq
          simp only at heq
          have gl : GoodInfo lhsInfo := by
            intro p hp
            cases l with
            | none =>
              rw [simplifyHelperO] at hl
              simp only [Option.some.injEq] at hl
              rw [← hl] at hp
              cases hp
            | some x =>
              rw [simplifyHelperO] at hl
              cases hx : simplifyHelper x with
              | none => rw [hx] at hl; simp at hl
              | some q =>
                rw [hx] at hl
                simp only [Option.some.injEq] at hl
                rw [← hl] at hp
                injection hp with hp2
                have hxsz : Expr.size x ≤ n := by
                  simp only [Expr.size, OExpr.osize] at hs
                  omega
                rw [← hp2]
                obtain ⟨qc, qe⟩ := q
                exact ih x hxsz qc qe hx
          have gr : GoodInfo rhsInfo := by
            intro p hp
            cases r with
            | none =>
              rw [simplifyHelperO] at hr
              simp only [Option.some.injEq] at hr
              rw [← hr] at hp
              cases hp
            | some x =>
              rw [simplifyHelperO] at hr
              cases hx : simplifyHelper x with
              | none => rw [hx] at hr; simp at hr
              | some q =>
                rw [hx] at hr
                simp only [Option.some.injEq] at hr
                rw [← hr] at hp
                injection hp with hp2
                have hxsz : Expr.size x ≤ n := by
                  simp only [Expr.size, OExpr.osize] at hs
                  omega
                rw [← hp2]
                obtain ⟨qc, qe⟩ := q
                exact ih x hxsz qc qe hx
          exact simplifyCore_fix lhsInfo rhsInfo op gl gr c e' heq

theorem simplify_fixpoint (e e' : Expr) (h : simplify e = some e') : simplify e' = some e' := by
  obtain ⟨⟨c, e2⟩, hh, hsnd⟩ : ∃ p, simplifyHelper e = some p ∧ p.2 = e' := by
    unfold simplify simplify_concat_select at h
    cases hh : simplifyHelper e with
    | none => rw [hh] at h; simp at h
    | some p =>
      rw [hh] at h
      simp at h
      exact ⟨p, rfl, h⟩
  subst hsnd
  unfold simplify simplify_concat_select
  rw [(helper_fix_aux (Expr.size e) e le_rfl c e2 hh).1]
  rfl

/-- C5: a CONCAT of two byte-range SELECTs of the same source whose bit
intervals are adjacent (in either order, with the source's first-branch
priority) simplifies to a single SELECT spanning the union interval applied
to the (simplified) shared source; and `simplify` is idempotent on every
expression. -/
theorem c5_concat_select_merge :
    (∀ (src src' : Expr) (csrc : ConcatOptCtx) (h1 l1 h2 l2 : Nat),
        simplifyHelper src = some (csrc, src') →
        (l1 = h2 + 1 →
          simplify (Expr.concat (Expr.mk (.some src) .none (.SELECT h1 l1))
              (Expr.mk (.some src) .none (.SELECT h2 l2)))
            = some (Expr.mk (.some src') .none (.SELECT h1 l2))) ∧
        (l1 ≠ h2 + 1 → h1 + 1 = l2 →
          simplify (Expr.concat (Expr.mk (.some src) .none (.SELECT h1 l1))
              (Expr.mk (.some src) .none (.SELECT h2 l2)))
            = some (Expr.mk (.some src') .none (.SELECT h2 l1)))) ∧
    (∀ e : Expr, (simplify e).bind simplify = simplify e) := by
  constructor
  · intro src src' csrc h1 l1 h2 l2 hsrc
    have hA : simplifyHelperO (OExpr.some src) = some (some (csrc, src')) := by
      rw [simplifyHelperO, hsrc]
    have hSel1 : simplifyHelper (Expr.mk (.some src) .none (.SELECT h1 l1))
        = some (⟨l1, h1, OExpr.some src'⟩, Expr.mk (.some src') .none (.SELECT h1 l1)) := by
      rw [simplifyHelper, hA]
      rfl
    have hSel2 : simplifyHelper (Expr.mk (.some src) .none (.SELECT h2 l2))
        = some (⟨l2, h2, OExpr.some src'⟩, Expr.mk (.some src') .none (.SELECT h2 l2)) := by
      rw [simplifyHelper, hA]
      rfl
    have hO1 : simplifyHelperO (OExpr.some (Expr.mk (.some src) .none (.SELECT h1 l1)))
        = some (some (⟨l1, h1, OExpr.some src'⟩,
            Expr.mk (.some src') .none (.SELECT h1 l1))) := by
      rw [simplifyHelperO, hSel1]
    have hO2 : simplifyHelperO (OExpr.some (Expr.mk (.some src) .none (.SELECT h2 l2)))
        = some (some (⟨l2, h2, OExpr.some src'⟩,
            Expr.mk (.some src') .none (.SELECT h2 l2))) := by
      rw [simplifyHelperO, hSel2]
    have base : simplify (Expr.concat (Expr.mk (.some src) .none (.SELECT h1 l1))
        (Expr.mk (.some src) .none (.SELECT h2 l2)))
        = (simplifyCore
            (some (⟨l1, h1, .some src'⟩, Expr.mk (.some src') .none (.SELECT h1 l1)))
            (some (⟨l2, h2, .some src'⟩, Expr.mk (.some src') .none (.SELECT h2 l2)))
            .CONCAT).map Prod.snd := by
      unfold simplify simplify_concat_select Expr.concat Expr.binop
      rw [simplifyHelper, hO1, hO2]
    constructor
    · intro hadj
      have hm : (⟨l1, h1, OExpr.some src'⟩ : ConcatOptCtx).merge ⟨l2, h2, OExpr.some src'⟩
          = (true, ⟨l2, h1, OExpr.some src'⟩) := by
        unfold ConcatOptCtx.merge
        rw [if_neg (by simp), if_pos hadj]
      rw [base]
      simp only [simplifyCore, hm]
      simp
    · intro hnadj hadj
      have hm : (⟨l1, h1, OExpr.some src'⟩ : ConcatOptCtx).merge ⟨l2, h2, OExpr.some src'⟩
          = (true, ⟨l1, h2, OExpr.some src'⟩) := by
        unfold ConcatOptCtx.merge
        rw [if_neg (by simp), if_neg hnadj, if_pos hadj]
      rw [base]
      simp only [simplifyCore, hm]
      simp
  · intro e
    cases h : simplify e with
    | none => rfl
    | some e' =>
      exact simplify_fixpoint e e' h

/-- Witness for C5: two adjacent byte-range SELECTs of the same sliced-input
source merge into the union SELECT, in both adjacency orders. -/
theorem c5_concat_select_merge_witness :
    simplify (Expr.concat (Expr.mk (.some (Expr.new_sliced_input 0)) .none (.SELECT 15 8))
        (Expr.mk (.some (Expr.new_sliced_input 0)) .none (.SELECT 7 0)))
      = some (Expr.mk (.some (Expr.new_sliced_input 0)) .none (.SELECT 15 0)) ∧
    simplify (Expr.concat (Expr.mk (.some (Expr.new_sliced_input 0)) .none (.SELECT 7 0))
        (Expr.mk (.some (Expr.new_sliced_input 0)) .none (.SELECT 15 8)))
      = some (Expr.mk (.some (Expr.new_sliced_input 0)) .none (.SELECT 15 0)) := by
  constructor
  · exact (c5_concat_select_merge.1 (Expr.new_sliced_input 0) (Expr.new_sliced_input 0)
      ⟨0, 0, OExpr.none⟩ 15 8 7 0 rfl).1 rfl
  · exact (c5_concat_select_merge.1 (Expr.new_sliced_input 0) (Expr.new_sliced_input 0)
      ⟨0, 0, OExpr.none⟩ 7 0 15 8 rfl).2 (by decide) rfl

/-- C3: the hashing opcode (SHA3, 0x20) pops both operand taint bits and
pushes `true` unconditionally, whatever the operands' taint. -/
theorem c3_sha3_taint :
    ∀ (view : InterpView) (s : Sha3TaintAnalysis) (a b : Bool) (rest : List Bool),
      view.opcode = 0x20 →
      s.dirty_stack = a :: b :: rest →
      view.stack.length = s.dirty_stack.length →
      sha3TaintOnStep view s = some { s with dirty_stack := true :: rest } := by
  intro view s a b rest hop hst hlen
  unfold sha3TaintOnStep
  rw [if_neg (by omega)]
  simp only [hop]
  norm_num
  simp [stackPopN, hst]

/-- C4: on JUMPI the taint analyzer discards the target's taint and, when
the branch condition's taint bit is set, records `(address, pc)` in the
tainted-branch set; the bypass observer overwrites the condition slot of a
recorded JUMPI with `(pc + randomness[0]) % 2` and leaves any JUMPI not in
the set untouched. -/
theorem c4_jumpi_taint_and_bypass :
    (∀ (view : InterpView) (s : Sha3TaintAnalysis) (t c : Bool) (rest : List Bool),
      view.opcode = 0x57 →
      s.dirty_stack = t :: c :: rest →
      view.stack.length = s.dirty_stack.length →
      sha3TaintOnStep view s = some (if c then
        { s with dirty_stack := rest,
                 tainted_jumpi := hsetInsert (view.address, view.pc) s.tainted_jumpi }
        else { s with dirty_stack := rest })) ∧
    (∀ (view : InterpView) (r0 : Nat) (rrest : List Nat) (taints : List (Nat × Nat))
        (x c : Nat) (rest : List Nat),
      view.opcode = 0x57 →
      view.stack = x :: c :: rest →
      taints.contains (view.address, view.pc) = true →
      sha3BypassOnStep view (r0 :: rrest) taints = some (x :: (view.pc + r0) % 2 :: rest)) ∧
    (∀ (view : InterpView) (randomness : List Nat) (taints : List (Nat × Nat)),
      taints.contains (view.address, view.pc) = false →
      sha3BypassOnStep view randomness taints = some view.stack) := by
  refine ⟨?_, ?_, ?_⟩
  · intro view s t c rest hop hst hlen
    unfold sha3TaintOnStep
    rw [if_neg (by omega)]
    simp only [hop]
    norm_num
    cases c <;> simp [hst]
  · intro view r0 rrest taints x c rest hop hst hmem
    have hmem2 : (view.address, view.pc) ∈ taints := by simpa using hmem
    unfold sha3BypassOnStep
    simp [hop, hst]
    rw [if_pos hmem2, if_neg (by omega)]
  · intro view randomness taints hmem
    have hmem2 : ¬ ((view.address, view.pc) ∈ taints) := by simpa using hmem
    unfold sha3BypassOnStep
    by_cases hop : view.opcode = 0x57 <;> simp [hop, hmem2]

/-- C1 (failing input): on EXTCODECOPY (0x3c) with four stack words the
taint analyzer pops only three (its `setup_mem!` arm), the concolic shadow
pops four, and the concrete EVM pops four — so after the step the taint
stack is one slot longer than the concrete stack, and the very next step's
`assert_eq!(stack.len, dirty_stack.len)` panics. -/
theorem c1_extcodecopy_divergence :
    sha3TaintOnStep ⟨0x3c, 7, 99, [0, 0, 0, 0]⟩ ⟨[], [], [false, false, false, false], [], []⟩
      = some ⟨[], [], [false], [], []⟩ ∧
    concolicOnStep ⟨0x3c, 7, 99, [0, 0, 0, 0]⟩
        ⟨[Option.none, Option.none, Option.none, Option.none], [], [], [], [], []⟩
      = some ⟨[], [], [], [], [], []⟩ ∧
    evmExtcodecopyPops = 4 ∧ evmExtcodecopyPushes = 0 ∧
    sha3TaintOnStep ⟨0x00, 8, 99, []⟩ ⟨[], [], [false], [], []⟩ = Option.none := by
  refine ⟨rfl, rfl, rfl, rfl, rfl⟩

/-- C9: `SymbolicMemory::insert_8` ends in an unconditional `todo!`, so
every MSTORE8 (0x53) step observed by the concolic shadow panics. -/
theorem c9_mstore8_panics :
    (∀ (mem : List (Option Expr)) (idx : Nat) (val : Expr),
      SymbolicMemory.insert_8 mem idx val = Option.none) ∧
    (∀ (view : InterpView) (h : ConcolicHostS),
      view.opcode = 0x53 →
      2 ≤ view.stack.length →
      2 ≤ h.symbolic_stack.length →
      concolicOnStep view h = Option.none) := by
  constructor
  · intro mem idx val; rfl
  · intro view h hop hcs hss
    obtain ⟨w0, w1, wr, hw⟩ : ∃ w0 w1 wr, view.stack = w0 :: w1 :: wr := by
      cases hv : view.stack with
      | nil => rw [hv] at hcs; simp at hcs
      | cons w0 t =>
        cases t with
        | nil => rw [hv] at hcs; simp at hcs
        | cons w1 wr => exact ⟨w0, w1, wr, rfl⟩
    obtain ⟨s0, s1, sr, hs⟩ : ∃ s0 s1 sr, h.symbolic_stack = s0 :: s1 :: sr := by
      cases hv : h.symbolic_stack with
      | nil => rw [hv] at hss; simp at hss
      | cons s0 t =>
        cases t with
        | nil => rw [hv] at hss; simp at hss
        | cons s1 sr => exact ⟨s0, s1, sr, rfl⟩
    unfold concolicOnStep
    simp only [hop]
    norm_num
    cases s1 <;> simp [stackBV, hw, hs, SymbolicMemory.insert_8]

/-- Witness for C3: both operands untainted, result still tainted. -/
theorem c3_sha3_taint_witness :
    sha3TaintOnStep ⟨0x20, 0, 0, [1, 2]⟩ ⟨[], [], [false, false], [], []⟩
      = some ⟨[], [], [true], [], []⟩ :=
  c3_sha3_taint ⟨0x20, 0, 0, [1, 2]⟩ ⟨[], [], [false, false], [], []⟩ false false [] rfl rfl rfl

/-- Witness for C4: a tainted condition records `(address, pc)`; the bypass
rewrites the recorded JUMPI's condition to `(pc + seed) % 2` and leaves an
unrecorded one alone. -/
theorem c4_jumpi_witness :
    sha3TaintOnStep ⟨0x57, 100, 5, [200, 1]⟩ ⟨[], [], [false, true], [], []⟩
      = some ⟨[], [], [], [(5, 100)], []⟩ ∧
    sha3BypassOnStep ⟨0x57, 100, 5, [200, 0]⟩ [9] [(5, 100)] = some [200, 1] ∧
    sha3BypassOnStep ⟨0x57, 101, 5, [200, 0]⟩ [9] [(5, 100)] = some [200, 0] := by
  refine ⟨?_, ?_, ?_⟩
  · exact c4_jumpi_taint_and_bypass.1 ⟨0x57, 100, 5, [200, 1]⟩
      ⟨[], [], [false, true], [], []⟩ false true [] rfl rfl rfl
  · exact c4_jumpi_taint_and_bypass.2.1 ⟨0x57, 100, 5, [200, 0]⟩ 9 [] [(5, 100)]
      200 0 [] rfl rfl (by decide)
  · exact c4_jumpi_taint_and_bypass.2.2 ⟨0x57, 101, 5, [200, 0]⟩ [9] [(5, 100)] (by decide)

/-- Witness for C9: `insert_8` panics on a concrete call, and a concrete
MSTORE8 step under the concolic shadow panics. -/
theorem c9_mstore8_witness :
    SymbolicMemory.insert_8 [] 0 (Expr.const_byte 1) = Option.none ∧
    concolicOnStep ⟨0x53, 0, 0, [0, 1]⟩ ⟨[Option.none, Option.none], [], [], [], [], []⟩
      = Option.none :=
  ⟨c9_mstore8_panics.1 [] 0 (Expr.const_byte 1),
   c9_mstore8_panics.2 ⟨0x53, 0, 0, [0, 1]⟩ ⟨[Option.none, Option.none], [], [], [], [], []⟩
     rfl (by decide) (by decide)⟩

/-- C2: on a terminal control-leak status, depth overflow
(`continuations + 1 > 10`) forces a reverted result carrying an
uninitialized empty state, while otherwise a continuation group built from
the captured frames is pushed; `executeAbiEnd` is total, so no crash. -/
theorem c2_leak_depth_bound :
    ∀ (r : IntermediateExecutionResult) (leak_ctx : List SinglePostExecution)
      (vm_state : EVMState) (tb : List (String × (Nat × Nat))) (sd : List (Nat × Nat))
      (ac : List (Nat × Nat × Nat)) (cc : Nat),
      isLeakRet r.ret = true →
      (r.new_state.post_execution.length + 1 > MAX_POST_EXECUTION →
        (executeAbiEnd r leak_ctx vm_state tb sd ac cc).reverted = true ∧
        (executeAbiEnd r leak_ctx vm_state tb sd ac cc).new_state.initialized = false ∧
        (executeAbiEnd r leak_ctx vm_state tb sd ac cc).new_state.state.post_execution = []) ∧
      (r.new_state.post_execution.length + 1 ≤ MAX_POST_EXECUTION →
        (executeAbiEnd r leak_ctx vm_state tb sd ac cc).new_state.state.post_execution
          = r.new_state.post_execution ++ [⟨leak_ctx, mustStepOf r.ret⟩] ∧
        (executeAbiEnd r leak_ctx vm_state tb sd ac cc).new_state.initialized = true) := by
  intro r leak_ctx vm_state tb sd ac cc hleak
  constructor
  · intro hdepth
    unfold executeAbiEnd
    rw [if_pos ⟨hleak, hdepth⟩]
    exact ⟨rfl, rfl, rfl⟩
  · intro hdepth
    unfold executeAbiEnd
    rw [if_neg (by omega)]
    simp [hleak, StagedVMState.new_with_state]

/-- Witness for C2: a control leak on a state already carrying ten
continuation groups reverts with an empty uninitialized state; on an empty
state the group of captured frames is appended. -/
theorem c2_leak_depth_bound_witness :
    ((executeAbiEnd ⟨[], ⟨[], List.replicate 10 ⟨[], false⟩, false, [], [], []⟩, 0,
        .ControlLeak, [], []⟩ [] EVMState.new [] [] [] 0).reverted = true ∧
      (executeAbiEnd ⟨[], ⟨[], List.replicate 10 ⟨[], false⟩, false, [], [], []⟩, 0,
        .ControlLeak, [], []⟩ [] EVMState.new [] [] [] 0).new_state.initialized = false ∧
      (executeAbiEnd ⟨[], ⟨[], List.replicate 10 ⟨[], false⟩, false, [], [], []⟩, 0,
        .ControlLeak, [], []⟩ [] EVMState.new [] [] [] 0).new_state.state.post_execution = []) ∧
    (executeAbiEnd ⟨[], EVMState.new, 0, .ControlLeak, [], []⟩
        [] EVMState.new [] [] [] 0).new_state.state.post_execution = [⟨[], false⟩] := by
  constructor
  · exact (c2_leak_depth_bound ⟨[], ⟨[], List.replicate 10 ⟨[], false⟩, false, [], [], []⟩, 0,
      .ControlLeak, [], []⟩ [] EVMState.new [] [] [] 0 rfl).1 (by decide)
  · exact ((c2_leak_depth_bound ⟨[], EVMState.new, 0, .ControlLeak, [], []⟩
      [] EVMState.new [] [] [] 0 rfl).2 (by decide)).1

/-- Counterexample for C7 as stated: a bounded-arbitrary-call status does
not always map to `reverted = false` — at continuation-depth overflow the
result is forced to `reverted = true`. -/
theorem c7_cex_arbitrary_overflow :
    (executeAbiEnd ⟨[], ⟨[], List.replicate 10 ⟨[], false⟩, false, [], [], []⟩, 0,
        .ArbitraryExternalCallAddressBounded 0 0 0, [], []⟩
        [] EVMState.new [] [] [] 0).reverted = true := by
  rfl

/-- C7 (amended): an unresolved target yields an immediate revert result
with `reverted = true` and no crash; return/stop/self-destruct map to
`reverted = false`; a bounded-arbitrary-call maps to `reverted = false`
except on continuation-depth overflow; every other non-success status maps
to `reverted = true`. -/
theorem c7_status_reverted :
    (executeFromPc_noCode.ret = .Revert ∧
      ∀ (leak_ctx : List SinglePostExecution) (vm_state : EVMState)
        (tb : List (String × (Nat × Nat))) (sd : List (Nat × Nat))
        (ac : List (Nat × Nat × Nat)) (cc : Nat),
        (executeAbiEnd executeFromPc_noCode leak_ctx vm_state tb sd ac cc).reverted = true) ∧
    (∀ (r : IntermediateExecutionResult) (leak_ctx : List SinglePostExecution)
        (vm_state : EVMState) (tb : List (String × (Nat × Nat))) (sd : List (Nat × Nat))
        (ac : List (Nat × Nat × Nat)) (cc : Nat),
      (r.ret = .Return ∨ r.ret = .Stop ∨ r.ret = .SelfDestruct) →
      (executeAbiEnd r leak_ctx vm_state tb sd ac cc).reverted = false) ∧
    (∀ (r : IntermediateExecutionResult) (leak_ctx : List SinglePostExecution)
        (vm_state : EVMState) (tb : List (String × (Nat × Nat))) (sd : List (Nat × Nat))
        (ac : List (Nat × Nat × Nat)) (cc : Nat) (a b c : Nat),
      r.ret = .ArbitraryExternalCallAddressBounded a b c →
      r.new_state.post_execution.length + 1 ≤ MAX_POST_EXECUTION →
      (executeAbiEnd r leak_ctx vm_state tb sd ac cc).reverted = false) ∧
    (∀ (r : IntermediateExecutionResult) (leak_ctx : List SinglePostExecution)
        (vm_state : EVMState) (tb : List (String × (Nat × Nat))) (sd : List (Nat × Nat))
        (ac : List (Nat × Nat × Nat)) (cc : Nat),
      is_call_success r.ret = false →
      isLeakRet r.ret = false →
      (executeAbiEnd r leak_ctx vm_state tb sd ac cc).reverted = true) := by
  refine ⟨⟨rfl, ?_⟩, ?_, ?_, ?_⟩
  · intro leak_ctx vm_state tb sd ac cc
    rfl
  · intro r leak_ctx vm_state tb sd ac cc hret
    unfold executeAbiEnd
    rw [if_neg (by rcases hret with h | h | h <;> simp [h, isLeakRet])]
    rcases hret with h | h | h <;> simp [h, isLeakRet, revertedOf]
  · intro r leak_ctx vm_state tb sd ac cc a b c hret hdepth
    unfold executeAbiEnd
    rw [if_neg (by omega)]
    simp [hret, isLeakRet, revertedOf]
  · intro r leak_ctx vm_state tb sd ac cc hsucc hleak
    unfold executeAbiEnd
    rw [if_neg (by simp [hleak])]
    have hrev : revertedOf r.ret = true := by
      cases hr : r.ret <;> simp_all [is_call_success, isLeakRet, revertedOf]
    simp [hleak, hrev]

theorem rebuild_aux (l acc : List Nat) (h : acc.length + l.length ≤ STACK_LIMIT) :
    l.foldl (fun acc v => if acc.length < STACK_LIMIT then acc ++ [v] else acc) acc
      = acc ++ l := by
  induction l generalizing acc with
  | nil => simp
  | cons x xs ih =>
    simp only [List.foldl_cons]
    rw [if_pos (by simp at h ⊢; omega)]
    rw [ih (acc ++ [x]) (by simp at h ⊢; omega)]
    simp

theorem rebuildStack_eq (l : List Nat) (h : l.length ≤ STACK_LIMIT) :
    rebuildStack l = l := by
  unfold rebuildStack
  simpa using rebuild_aux l [] (by simpa using h)

/-- Counterexample for C8 as stated: resuming with a zero-length replay
buffer does not zero-fill the output window — the snapshot byte 42 inside
the recorded one-byte window (offset 0, length 1) survives untouched. -/
theorem c8_cex_no_zero_fill :
    executeFromPcResume ⟨13, .ControlLeak, [42, 7], [], (0, 0), false, [], 11, 12, 13, 14, 1, 0⟩
        [0, 0, 0, 0]
      = some ⟨13, .ControlLeak, [42, 7], [], [], (0, 0), false, ⟨[], 11, 12, 13, 14⟩⟩ ∧
    (42 : Nat) ≠ 0 := by
  exact ⟨rfl, by decide⟩

/-- C8 (amended): resuming from a Single Continuation restores program
counter, stack, memory, static flag and contract identity, sets the return
buffer to the replay payload minus its 4-byte prefix and writes its first
`min(output_len, buffer_len)` bytes at `output_offset`; a zero-length
replay buffer writes nothing — memory stays exactly the snapshot memory —
and does not panic. -/
theorem c8_resume_restores :
    (∀ (pe : SinglePostExecution) (data : List Nat),
      4 ≤ data.length →
      pe.stack.length ≤ STACK_LIMIT →
      pe.output_offset + min pe.output_len (data.length - 4) ≤ pe.memory.length →
      ∃ i, executeFromPcResume pe data = some i ∧
        i.program_counter = pe.program_counter ∧
        i.stack = pe.stack ∧
        i.is_static = pe.is_static ∧
        i.contract = ⟨pe.input, pe.code_address, pe.address, pe.caller, pe.value⟩ ∧
        i.return_data_buffer = data.drop 4 ∧
        i.memory = (memSet pe.memory pe.output_offset
          ((data.drop 4).take (min pe.output_len (data.length - 4)))).getD pe.memory) ∧
    (∀ (pe : SinglePostExecution) (data : List Nat),
      data.length = 4 →
      executeFromPcResume pe data = some pe.get_interpreter ∧
      pe.get_interpreter.memory = pe.memory) := by
  constructor
  · intro pe data hlen hstack hwin
    have hbuf : (data.drop 4).length = data.length - 4 := by simp
    have hms : ∃ m, memSet pe.memory pe.output_offset
        ((data.drop 4).take (min pe.output_len (data.length - 4))) = some m := by
      unfold memSet
      by_cases hz : ((data.drop 4).take (min pe.output_len (data.length - 4))).length = 0
      · rw [if_pos hz]; exact ⟨_, rfl⟩
      · rw [if_neg hz, if_pos (by simp at hz ⊢; omega)]
        exact ⟨_, rfl⟩
    obtain ⟨m, hm⟩ := hms
    refine ⟨{ pe.get_interpreter with return_data_buffer := data.drop 4, memory := m }, ?_, ?_, ?_, ?_, ?_, ?_, ?_⟩
    · unfold executeFromPcResume
      rw [if_neg (by omega)]
      simp only [SinglePostExecution.get_interpreter]
      rw [show (min pe.output_len (List.drop 4 data).length)
          = min pe.output_len (data.length - 4) from by rw [hbuf]]
      simp [hm]
    · rfl
    · simp [SinglePostExecution.get_interpreter, rebuildStack_eq pe.stack hstack]
    · rfl
    · rfl
    · rfl
    · simp [hm]
  · intro pe data hlen
    have hd : data.drop 4 = [] := by
      apply List.eq_nil_of_length_eq_zero
      simp [hlen]
    constructor
    · unfold executeFromPcResume
      rw [if_neg (by omega)]
      simp [hd, memSet]
      rfl
    · rfl


/-- Witness for C8 (amended): a concrete resume with a two-byte payload
writes one byte (the window length) at offset 0, and a zero-length payload
leaves the snapshot untouched. -/
theorem c8_resume_restores_witness :
    (∃ i, executeFromPcResume
        ⟨13, .ControlLeak, [42, 7], [3], (0, 0), false, [9], 11, 12, 13, 14, 1, 0⟩
        [0, 0, 0, 0, 77, 88] = some i ∧
      i.program_counter = 13 ∧ i.stack = [3] ∧ i.is_static = false ∧
      i.contract = ⟨[9], 11, 12, 13, 14⟩ ∧ i.return_data_buffer = [77, 88] ∧
      i.memory = [77, 7]) ∧
    executeFromPcResume ⟨13, .ControlLeak, [42, 7], [3], (0, 0), false, [9], 11, 12, 13, 14, 1, 0⟩
        [0, 0, 0, 0]
      = some (⟨13, .ControlLeak, [42, 7], [3], (0, 0), false, [9], 11, 12, 13, 14, 1,
          0⟩ : SinglePostExecution).get_interpreter := by
  constructor
  · obtain ⟨i, h1, h2, h3, h4, h5, h6, h7⟩ := c8_resume_restores.1
      ⟨13, .ControlLeak, [42, 7], [3], (0, 0), false, [9], 11, 12, 13, 14, 1, 0⟩
      [0, 0, 0, 0, 77, 88] (by decide) (by decide) (by decide)
    exact ⟨i, h1, h2, h3, h4, h5, h6, by rw [h7]; rfl⟩
  · exact (c8_resume_restores.2
      ⟨13, .ControlLeak, [42, 7], [3], (0, 0), false, [9], 11, 12, 13, 14, 1, 0⟩
      [0, 0, 0, 0] rfl).1

/-- C10: `eq` compares only the per-address storage mapping — it is
invariant under changes to the continuation list and the bug sets — while
the `get_hash` transcript also feeds every pending continuation context to
the hasher, so two states can be `eq`-equal yet have distinct hash inputs. -/
theorem c10_eq_storage_hash_continuations :
    (∀ s1 s2 : EVMState, EVMState.veq s1 s2 = stateEqB s1.state s2.state) ∧
    (∀ (s1 s2 : EVMState) (p1 p2 : List PostExecutionCtx) (b1 b2 : Bool)
        (sd1 sd2 : List (Nat × Nat)) (tb1 tb2 : List (String × (Nat × Nat)))
        (ac1 ac2 : List (Nat × Nat × Nat)),
      EVMState.veq
          { s1 with post_execution := p1, bug_hit := b1, self_destruct := sd1,
                    typed_bug := tb1, arbitrary_calls := ac1 }
          { s2 with post_execution := p2, bug_hit := b2, self_destruct := sd2,
                    typed_bug := tb2, arbitrary_calls := ac2 }
        = EVMState.veq s1 s2) ∧
    (∃ s1 s2 : EVMState, EVMState.veq s1 s2 = true ∧
      EVMState.get_hash s1 ≠ EVMState.get_hash s2) := by
  refine ⟨fun _ _ => rfl, fun _ _ _ _ _ _ _ _ _ _ _ _ => rfl,
    ⟨EVMState.new,
      ⟨[], [⟨[⟨0, .Stop, [], [], (0, 0), false, [], 0, 0, 0, 0, 0, 0⟩], false⟩],
        false, [], [], []⟩, by decide, by decide⟩⟩
